import Mathlib

/-!
Verification of the data-windowing and evaluation pipeline of the
browser-based music-popularity prediction app.

The development shallowly embeds the `DataLoader` pipeline
(`parseCSV`, `selectTopTracks`, `normalizeFeatures`, `minMaxNormalize`,
`createSlidingWindows`, `createSample`, `createTarget` from `app.js`),
the evaluation analyzer of the model wrapper
(`computeConsistentAccuracy` from `gru.js`,
`detectBreakoutTracks` / `calculateRiskLevel` from `app.js`), and the
CSV record store.

Modelling conventions:
* JavaScript numbers are modelled as rationals (`ℚ`); the claims under
  study are exact arithmetic facts that hold equally for the float
  semantics at the small magnitudes involved.
* Date strings are modelled as naturals whose order mirrors the lexical
  order of the date strings (the code sorts date strings lexically and
  the spec requires callers to format dates so that lexical order is
  chronological); only this order is ever consumed.
* JavaScript `Map` (insertion-ordered) is modelled as an association
  list, updates in place preserving order, new keys appended.
* `Array.prototype.sort` (a stable sort by a comparator, per
  ECMAScript) is modelled with `List.mergeSort`, which is stable, using
  `le a b := cmp a b ≤ 0` for comparator `cmp`.
-/

namespace MusicApp

/-- A data row after `parseCSV` + `engineerFeatures`: the derived
`streams_momentum` / `streams_ma3` fields are set on every retained row
of a selected track, so they are plain fields here. -/
structure Row where
  date : ℕ
  track_id : String
  streams : ℚ
  danceability : ℚ
  energy : ℚ
  streams_momentum : ℚ
  streams_ma3 : ℚ
deriving DecidableEq, Repr

/-- `Array.from(this.dates).sort()`: the distinct dates of the data, in
sorted order.  `this.dates` is a `Set` built in row order (first
occurrences), sorted lexically; on the ℕ model this is a `dedup`
followed by an increasing sort. -/
def sortedDatesOf (data : List Row) : List ℕ :=
  ((data.map Row.date).dedup).insertionSort (· ≤ ·)

/-- The per-track stream totals of `selectTopTracks`: a JS `Map` built
by `trackStreams.set(id, (trackStreams.get(id)||0) + entry.streams)`,
so existing keys are updated in place and new keys appended. -/
def aggregateStreams (data : List Row) : List (String × ℚ) :=
  data.foldl (fun acc e =>
    if acc.any (fun p => p.1 == e.track_id) then
      acc.map (fun p => if p.1 == e.track_id then (p.1, p.2 + e.streams) else p)
    else acc ++ [(e.track_id, e.streams)]) []

/-- The comparator `(a, b) => b[1] - a[1]` of `selectTopTracks`, as the
"may stay before" Boolean relation of a stable sort: `a` may precede `b`
iff `cmp a b ≤ 0`, i.e. `b.2 ≤ a.2`. -/
def trackLE (a b : String × ℚ) : Bool := decide (b.2 ≤ a.2)

/-- `Array.from(trackStreams.entries()).sort((a,b) => b[1] - a[1])`. -/
def sortTracksDesc (l : List (String × ℚ)) : List (String × ℚ) :=
  l.mergeSort trackLE

/-- `DataLoader.selectTopTracks`: descending stable sort of the totals,
truncated to `n`, keeping only the track ids. -/
def selectTopTracksList (data : List Row) (n : ℕ) : List String :=
  ((sortTracksDesc (aggregateStreams data)).take n).map Prod.fst

/-- `this.data.filter(entry => this.selectedTracks.includes(entry.track_id))`. -/
def filterToSelected (data : List Row) (selected : List String) : List Row :=
  data.filter (fun e => selected.contains e.track_id)

/-- The per-track metadata record `{id, name, totalStreams}`. -/
structure TrackMeta where
  id : String
  name : String
  totalStreams : ℚ
deriving DecidableEq, Repr

/-- `trackStreams.get(trackId)` (present for every selected track). -/
def lookupTotal (l : List (String × ℚ)) (tr : String) : ℚ :=
  ((l.find? (fun p => p.1 == tr)).map Prod.snd).getD 0

/-- The `trackMetadata` map after `selectTopTracks` on a fresh loader:
for each selected track (in order), an entry is inserted iff some
filtered row for that track exists. -/
def trackMetadataList (data : List Row) (n : ℕ) : List (String × TrackMeta) :=
  let totals := aggregateStreams data
  let selected := selectTopTracksList data n
  let filtered := filterToSelected data selected
  selected.filterMap (fun tr =>
    if (filtered.find? (fun d => d.track_id == tr)).isSome then
      some (tr, ⟨tr, tr, lookupTotal totals tr⟩)
    else none)

/-! ## Normalizer -/

/-- A per-(track, feature) min/max parameter pair. -/
structure NormParams where
  min : ℚ
  max : ℚ
deriving DecidableEq, Repr

/-- `values.length > 0 ? {min: Math.min(...values), max: Math.max(...values)} : {min: 0, max: 1}`. -/
def fitFeature (values : List ℚ) : NormParams :=
  match values with
  | [] => ⟨0, 1⟩
  | v :: vs => ⟨vs.foldl min v, vs.foldl max v⟩

/-- The five per-track parameter pairs of the simplified configuration
(`['streams','danceability','energy','streams_momentum','streams_ma3']`).
The source filters out `NaN` values before taking min/max; on the ℚ
model every field value is a number, so the filter is the identity. -/
structure TrackParams where
  streams : NormParams
  danceability : NormParams
  energy : NormParams
  streams_momentum : NormParams
  streams_ma3 : NormParams
deriving DecidableEq, Repr

def fitTrackParams (trackData : List Row) : TrackParams where
  streams := fitFeature (trackData.map Row.streams)
  danceability := fitFeature (trackData.map Row.danceability)
  energy := fitFeature (trackData.map Row.energy)
  streams_momentum := fitFeature (trackData.map Row.streams_momentum)
  streams_ma3 := fitFeature (trackData.map Row.streams_ma3)

/-- `sortedDates.slice(0, Math.floor(sortedDates.length * 0.8))`, the
training-period dates used to fit normalization parameters. -/
def trainingDatesOf (data : List Row) : List ℕ :=
  (sortedDatesOf data).take ((sortedDatesOf data).length * 4 / 5)

/-- The `normalizationParams` map built by `normalizeFeatures`: per
selected track, parameters fitted from that track's rows whose date is
a training-period date. -/
def fitNormalizationParams (data : List Row) (selected : List String) :
    List (String × TrackParams) :=
  selected.map (fun tr =>
    (tr, fitTrackParams (data.filter (fun d =>
      d.track_id == tr && (trainingDatesOf data).contains d.date))))

/-- `DataLoader.minMaxNormalize`: `(v - min)/(max - min)` when
`max > min`, the constant `0.5` otherwise (the `params &&` guard of the
source is vacuous here since a parameter record is always supplied). -/
def minMaxNormalize (value : ℚ) (params : NormParams) : ℚ :=
  if params.min < params.max then
    (value - params.min) / (params.max - params.min)
  else 1/2

/-- `normalizationParams.get(entry.track_id)`. -/
def lookupParams (params : List (String × TrackParams)) (tr : String) :
    Option TrackParams :=
  (params.find? (fun p => p.1 == tr)).map Prod.snd

/-- A row together with the five `<feature>_normalized` fields written
onto it by `normalizeFeatures`. -/
structure NRow where
  row : Row
  streams_normalized : ℚ
  danceability_normalized : ℚ
  energy_normalized : ℚ
  streams_momentum_normalized : ℚ
  streams_ma3_normalized : ℚ
deriving DecidableEq, Repr

/-- The apply step of `normalizeFeatures` for one entry: with
parameters, each feature is min-max normalized (the source's
`entry.streams_momentum || 0` fallbacks are vacuous since the derived
fields are set on every selected row); with no parameters for the
row's track, every normalized feature is the constant `0.5`. -/
def applyNormalization (params : List (String × TrackParams)) (e : Row) : NRow :=
  match lookupParams params e.track_id with
  | some p =>
      { row := e
        streams_normalized := minMaxNormalize e.streams p.streams
        danceability_normalized := minMaxNormalize e.danceability p.danceability
        energy_normalized := minMaxNormalize e.energy p.energy
        streams_momentum_normalized := minMaxNormalize e.streams_momentum p.streams_momentum
        streams_ma3_normalized := minMaxNormalize e.streams_ma3 p.streams_ma3 }
  | none => ⟨e, 1/2, 1/2, 1/2, 1/2, 1/2⟩

/-- `DataLoader.normalizeFeatures`: fit on the training-period subset,
apply to every row. -/
def normalizeFeatures (data : List Row) (selected : List String) : List NRow :=
  data.map (applyNormalization (fitNormalizationParams data selected))

/-! ## Window builder -/

/-- `this.data.find(d => d.date === date && d.track_id === trackId)`. -/
def findEntry (data : List Row) (date : ℕ) (tr : String) : Option Row :=
  data.find? (fun d => d.date == date && d.track_id == tr)

/-- The same lookup against the normalized rows (in the source the
normalized fields live on the same mutated `this.data` entries). -/
def findNEntry (ndata : List NRow) (date : ℕ) (tr : String) : Option NRow :=
  ndata.find? (fun d => d.row.date == date && d.row.track_id == tr)

/-- The five per-track values pushed for one `(date, track)` slot of a
sample day: the normalized features when the entry exists, five zeros
otherwise (`dayFeatures.push(0, 0, 0, 0, 0)`). -/
def featureVector (ndata : List NRow) (date : ℕ) (tr : String) : List ℚ :=
  match findNEntry ndata date tr with
  | some e => [e.streams_normalized, e.danceability_normalized, e.energy_normalized,
               e.streams_momentum_normalized, e.streams_ma3_normalized]
  | none => [0, 0, 0, 0, 0]

/-- The `for (const trackId of ...) { ... push(...) }` concatenation
pattern: one block per element, in order. -/
def concatBlocks {α β : Type} (f : α → List β) : List α → List β
  | [] => []
  | x :: xs => f x ++ concatBlocks f xs

/-- `DataLoader.createSample`: one feature row per window date, the
trailing `sample.length === windowDates.length ? sample : null` guard
kept as in the source. -/
def createSample (ndata : List NRow) (selected : List String)
    (windowDates : List ℕ) : Option (List (List ℚ)) :=
  let sample := windowDates.map (fun date => concatBlocks (featureVector ndata date) selected)
  if sample.length = windowDates.length then some sample else none

/-- One future-offset label inside `createTarget`:
`sortedDates[currentDateIndex + offset]` looked up (an out-of-range
access is JS `undefined`, whose lookup finds nothing), then
`futureEntry.streams > currentStreams ? 1 : 0`, or `null` if the future
entry is missing. -/
def futureLabel (data : List Row) (sortedDates : List ℕ) (idx : ℕ)
    (tr : String) (currentStreams : ℚ) (offset : ℕ) : Option ℚ :=
  match sortedDates[idx + offset]? with
  | none => none
  | some futureDate =>
    match findEntry data futureDate tr with
    | some fe => some (if currentStreams < fe.streams then 1 else 0)
    | none => none

/-- The three labels contributed by one track in `createTarget`; `none`
as soon as the current entry or any future entry is missing. -/
def trackTargetBlock (data : List Row) (sortedDates : List ℕ)
    (currentDate : ℕ) (tr : String) : Option (List ℚ) :=
  match findEntry data currentDate tr with
  | none => none
  | some ce =>
    match futureLabel data sortedDates (sortedDates.indexOf currentDate) tr ce.streams 1,
          futureLabel data sortedDates (sortedDates.indexOf currentDate) tr ce.streams 2,
          futureLabel data sortedDates (sortedDates.indexOf currentDate) tr ce.streams 3 with
    | some l1, some l2, some l3 => some [l1, l2, l3]
    | _, _, _ => none

/-- The track loop of `createTarget`, appending each track's block. -/
def createTargetGo (data : List Row) (sortedDates : List ℕ)
    (currentDate : ℕ) : List String → Option (List ℚ)
  | [] => some []
  | tr :: rest =>
    match trackTargetBlock data sortedDates currentDate tr with
    | none => none
    | some block =>
      match createTargetGo data sortedDates currentDate rest with
      | none => none
      | some tail => some (block ++ tail)

/-- `DataLoader.createTarget` (it recomputes the sorted date list from
`this.dates` itself). -/
def createTarget (data : List Row) (selected : List String)
    (currentDate : ℕ) : Option (List ℚ) :=
  createTargetGo data (sortedDatesOf data) currentDate selected

def windowSize : ℕ := 7

/-- One iteration of the `createSlidingWindows` loop at end-date index
`i`: `windowDates = sortedDates.slice(i - windowSize, i)`, the sample
and target built, and the pair kept only when the target has length
`selectedTracks.length * 3`. -/
def windowAt (data : List Row) (ndata : List NRow) (selected : List String)
    (sortedDates : List ℕ) (i : ℕ) : Option (List (List ℚ) × List ℚ) :=
  let windowDates := (sortedDates.drop (i - windowSize)).take windowSize
  match createSample ndata selected windowDates with
  | none => none
  | some sample =>
    match createTarget data selected (sortedDates.getD i 0) with
    | none => none
    | some target =>
      if target.length = selected.length * 3 then some (sample, target) else none

/-- `DataLoader.createSlidingWindows`: normalize, then iterate
`for (let i = windowSize; i < sortedDates.length - 3; i++)`, collecting
the accepted (sample, target) pairs in date order. -/
def createSlidingWindows (data : List Row) (selected : List String) :
    List (List (List ℚ)) × List (List ℚ) :=
  let ndata := normalizeFeatures data selected
  let sortedDates := sortedDatesOf data
  let cands := List.range' windowSize (sortedDates.length - 3 - windowSize)
  let pairs := cands.filterMap (windowAt data ndata selected sortedDates)
  (pairs.map Prod.fst, pairs.map Prod.snd)

/-! ## Evaluation analyzer -/

/-- `tensor.greater(0.5).cast('float32')` over a rank-2 prediction or
target matrix. -/
def binarize (m : List (List ℚ)) : List (List ℚ) :=
  m.map (List.map (fun x => if 1/2 < x then (1 : ℚ) else 0))

/-- `binaryPreds.equal(binaryTrue).sum()`: the number of positions at
which the two (same-shaped) matrices agree. -/
def countMatches (a b : List (List ℚ)) : ℕ :=
  (a.zip b).foldl
    (fun acc p => acc + ((p.1.zip p.2).countP (fun q => q.1 == q.2))) 0

/-- `GRUModel.computeConsistentAccuracy` (the fixed version of
`gru.js`): threshold both matrices at `0.5`, count matches, and divide
by the total entry count computed from the shape as
`y_true.shape[0] * y_true.shape[1]`. -/
def computeConsistentAccuracy (predictions y_true : List (List ℚ)) : ℚ :=
  let correct := countMatches (binarize predictions) (binarize y_true)
  let total := y_true.length * (y_true.headD []).length
  (correct : ℚ) / (total : ℚ) * 100

/-- `MusicPopularityApp.calculateRiskLevel`, applied to the raw
(pre-percentage) average breakout score and confidence. -/
def calculateRiskLevel (breakoutScore confidence : ℚ) : String :=
  if 1/10 < breakoutScore ∧ 7/10 < confidence then "low"
  else if 1/20 < breakoutScore ∧ 6/10 < confidence then "medium"
  else if 0 < breakoutScore then "high"
  else "very-high"

/-- The per-track record returned by `detectBreakoutTracks`. -/
structure BreakoutInfo where
  trackId : String
  trackName : String
  breakoutScore : ℚ
  confidence : ℚ
  trend : String
  riskLevel : String
deriving DecidableEq, Repr

/-- The per-sample accumulation of `detectBreakoutTracks` for the
track occupying prediction columns `trackIndex*3 .. trackIndex*3+2`:
sums of `(day3 - day1)*2 + (day2 - day1)` and of the mean day
probability, with the sample count. -/
def breakoutSums (predData : List (List ℚ)) (trackIndex : ℕ) : ℚ × ℚ × ℕ :=
  predData.foldl
    (fun acc row =>
      let day1Prob := row.getD (trackIndex * 3) 0
      let day2Prob := row.getD (trackIndex * 3 + 1) 0
      let day3Prob := row.getD (trackIndex * 3 + 2) 0
      let trendStrength := (day3Prob - day1Prob) * 2 + (day2Prob - day1Prob)
      let overallConfidence := (day1Prob + day2Prob + day3Prob) / 3
      (acc.1 + trendStrength, acc.2.1 + overallConfidence, acc.2.2 + 1))
    (0, 0, 0)

/-- The record built for one track (before the final sort): the
averages are scaled by 100 for reporting, while `calculateRiskLevel`
receives the unscaled averages. -/
def trackBreakout (predData : List (List ℚ)) (trackIndex : ℕ)
    (track : TrackMeta) : BreakoutInfo :=
  let sums := breakoutSums predData trackIndex
  let avgBreakoutScore := sums.1 / (sums.2.2 : ℚ)
  let avgConfidence := sums.2.1 / (sums.2.2 : ℚ)
  { trackId := track.id
    trackName := track.name
    breakoutScore := avgBreakoutScore * 100
    confidence := avgConfidence * 100
    trend := if 0 < avgBreakoutScore then "rising" else "stable"
    riskLevel := calculateRiskLevel avgBreakoutScore avgConfidence }

/-- `MusicPopularityApp.detectBreakoutTracks`: one record per metadata
track (`tracks.map((track, trackIndex) => ...)`), sorted descending by
breakout score (`sort((a, b) => b.breakoutScore - a.breakoutScore)`,
stable). -/
def detectBreakoutTracks (predData : List (List ℚ))
    (tracks : List TrackMeta) : List BreakoutInfo :=
  let scores := tracks.enum.map (fun p => trackBreakout predData p.1 p.2)
  scores.mergeSort (fun a b => decide (b.breakoutScore ≤ a.breakoutScore))

/-! ## Record store (CSV parser)

JS strings are sequences of UTF-16 code units; the string operations of
`parseCSV` are modelled directly on `List Char`. -/

/-- `haystack.includes(needle)`. -/
def charsInclude (needle : List Char) : List Char → Bool
  | [] => needle.isEmpty
  | c :: rest => needle.isPrefixOf (c :: rest) || charsInclude needle rest

/-- `h.toLowerCase()`, per character. -/
def lowerChars (s : List Char) : List Char := s.map Char.toLower

/-- `text.split(sep)` for a one-character separator. -/
def splitChar (c : Char) : List Char → List (List Char)
  | [] => [[]]
  | x :: rest =>
    if x == c then [] :: splitChar c rest
    else
      match splitChar c rest with
      | [] => [[x]]
      | cur :: parts => (x :: cur) :: parts

/-- `s.trim()`: strip leading and trailing whitespace. -/
def trimChars (s : List Char) : List Char :=
  ((s.dropWhile Char.isWhitespace).reverse.dropWhile Char.isWhitespace).reverse

/-- `s.replace(/"/g, '')`. -/
def removeQuotes (s : List Char) : List Char := s.filter (fun c => c != '"')

/-- One character of the `parseCSVLine` quote-toggle scanner: state is
(current field, inQuotes, fields flushed so far). -/
def parseCSVLineStep (st : List Char × Bool × List (List Char)) (c : Char) :
    List Char × Bool × List (List Char) :=
  let (cur, inQuotes, acc) := st
  if c == '"' then (cur, !inQuotes, acc)
  else if c == ',' && !inQuotes then
    ([], inQuotes, acc ++ [removeQuotes (trimChars cur)])
  else (cur ++ [c], inQuotes, acc)

/-- `DataLoader.parseCSVLine`. -/
def parseCSVLine (line : List Char) : List (List Char) :=
  let st := line.foldl parseCSVLineStep ([], false, [])
  st.2.2 ++ [removeQuotes (trimChars st.1)]

/-- `lines[0].split(',').map(h => h.trim().replace(/"/g, ''))`. -/
def parseHeaders (headerLine : List Char) : List (List Char) :=
  (splitChar ',' headerLine).map (fun h => removeQuotes (trimChars h))

/-- `headers.findIndex(h => h.toLowerCase().includes(key))`; `-1` when
no column matches. -/
def headerIdx (headers : List (List Char)) (key : List Char) : Int :=
  match headers.findIdx? (fun h => charsInclude key (lowerChars h)) with
  | some i => (i : Int)
  | none => -1

/-- The seven located column indices of `parseCSV`. -/
structure HeaderIdxs where
  dateIdx : Int
  trackIdx : Int
  streamsIdx : Int
  danceabilityIdx : Int
  energyIdx : Int
  valenceIdx : Int
  acousticnessIdx : Int
deriving DecidableEq, Repr

def locateHeaders (headers : List (List Char)) : HeaderIdxs where
  dateIdx := headerIdx headers "date".toList
  trackIdx := headerIdx headers "track".toList
  streamsIdx := headerIdx headers "stream".toList
  danceabilityIdx := headerIdx headers "danceability".toList
  energyIdx := headerIdx headers "energy".toList
  valenceIdx := headerIdx headers "valence".toList
  acousticnessIdx := headerIdx headers "acousticness".toList

/-- `values[i]` for a JS (possibly `-1`) index: `undefined` off range. -/
def jsIndex {α : Type} (values : List α) (i : Int) : Option α :=
  if 0 ≤ i then values[i.toNat]? else none

/-- The `Math.max(dateIdx, trackIdx, streamsIdx, danceabilityIdx,
energyIdx)` bound of the row-length check. -/
def requiredIdxMax (idxs : HeaderIdxs) : Int :=
  max idxs.dateIdx (max idxs.trackIdx (max idxs.streamsIdx
    (max idxs.danceabilityIdx idxs.energyIdx)))

/-- A parsed row of `this.data` (string fields as char sequences). -/
structure CSVEntry where
  date : List Char
  track_id : List Char
  streams : ℚ
  danceability : ℚ
  energy : ℚ
  valence : ℚ
  acousticness : ℚ
deriving DecidableEq, Repr

/-- The body of the row loop of `parseCSV`: the row is parsed by
`parseCSVLine`, kept only if its column count reaches
`Math.max(dateIdx, trackIdx, streamsIdx, danceabilityIdx, energyIdx)`
and both the track id and the date are non-empty (JS truthiness of the
string fields; a missing column reads as `undefined`, also falsy). -/
def rowEntry (parseNum : Option (List Char) → ℚ) (idxs : HeaderIdxs)
    (line : List Char) : Option CSVEntry :=
  let values := parseCSVLine line
  if (values.length : Int) ≥ requiredIdxMax idxs then
    let date := (jsIndex values idxs.dateIdx).getD []
    let track := (jsIndex values idxs.trackIdx).getD []
    if track ≠ [] ∧ date ≠ [] then
      some { date := date, track_id := track,
             streams := parseNum (jsIndex values idxs.streamsIdx),
             danceability := parseNum (jsIndex values idxs.danceabilityIdx),
             energy := parseNum (jsIndex values idxs.energyIdx),
             valence := parseNum (jsIndex values idxs.valenceIdx),
             acousticness := parseNum (jsIndex values idxs.acousticnessIdx) }
    else none
  else none

/-- `DataLoader.parseCSV` up to the point where `this.data` is filled
(before `selectTopTracks` / `engineerFeatures` run): lines split on
newlines, blank lines dropped, headers located case-insensitively by
substring, each data row parsed and filtered.  `parseNum` stands for
`v => parseFloat(v) || 0`, whose float-literal parsing is outside the
arithmetic model; no claim under study depends on its values. -/
def parseCSV (parseNum : Option (List Char) → ℚ) (csvText : List Char) :
    List CSVEntry :=
  match (splitChar '\n' csvText).filter (fun l => trimChars l ≠ []) with
  | [] => []
  | headerLine :: rest =>
    let idxs := locateHeaders (parseHeaders headerLine)
    rest.filterMap (rowEntry parseNum idxs)

/-! ## Acceptance predicate for window candidates

The claim-level description of when `createSlidingWindows` accepts a
candidate end-date index: every selected track has an observation at
the candidate date and at each of the three future dates. -/

def requiredObsPresent (data : List Row) (selected : List String) (i : ℕ) : Bool :=
  selected.all (fun tr => (List.range 4).all (fun o =>
    (findEntry data ((sortedDatesOf data).getD (i + o) 0) tr).isSome))

/-! ## Concrete datasets used by the claim instances -/

/-- A row carrying only a date and a track (all features zero). -/
def gridRow (tr : String) (d : ℕ) : Row := ⟨d, tr, 0, 0, 0, 0, 0⟩

/-- Two tracks, the 11 dates `D0..D10`, every observation present. -/
def fullGrid : List Row :=
  ((List.range 11).map (gridRow "A")) ++ ((List.range 11).map (gridRow "B"))

/-- `fullGrid` with the single observation (track `B`, date `D9`)
removed; all 11 dates still occur (track `A` covers them). -/
def puncturedGrid : List Row :=
  fullGrid.filter (fun r => !(r.track_id == "B" && r.date == 9))

/-- The selected-track order for the grid datasets. -/
def selAB : List String := ["A", "B"]

/-- A single-track row with a given date and stream count. -/
def c3row (d : ℕ) (s : ℚ) : Row := ⟨d, "A", s, 0, 0, 0, 0⟩

/-- Four distinct dates: the 80% cutoff is `⌊4·0.8⌋ = 3` dates. -/
def c3data : List Row := [c3row 0 0, c3row 1 0, c3row 2 0, c3row 3 100]

/-- Five distinct dates: the 80% cutoff is `⌊5·0.8⌋ = 4` dates, and
`⌊6·0.8⌋ = 4` as well, so appending a sixth date moves nothing. -/
def c3data5 : List Row := c3data ++ [c3row 4 50]

/-- Streams totals {A:100, B:50, C:200}, in first-encountered order. -/
def ex8 : List Row :=
  [⟨0, "A", 100, 0, 0, 0, 0⟩, ⟨0, "B", 50, 0, 0, 0, 0⟩, ⟨0, "C", 200, 0, 0, 0, 0⟩]

/-- Two tracks with tied totals, for the stability instance. -/
def ex8tie : List Row :=
  [⟨0, "A", 100, 0, 0, 0, 0⟩, ⟨0, "B", 100, 0, 0, 0, 0⟩]

/-- One track, five dates, streams 5, 3, 3, 8, 2: from date `1`
(streams 3) the three future comparisons give 0 (equal), 1 (8 > 3),
0 (2 < 3). -/
def c4data : List Row :=
  [c3row 0 5, c3row 1 3, c3row 2 3, c3row 3 8, c3row 4 2]

/-- The constant-zero stand-in for `parseFloat(v) || 0`. -/
def pn0 : Option (List Char) → ℚ := fun _ => 0

/-- A CSV whose data row has four columns, one short of containing the
located `energy` column (index 4). -/
def csv9 : List Char := "date,track,stream,danceability,energy\nd1,t1,5,6".toList

/-- The header indices located for `csv9`. -/
def csv9idxs : HeaderIdxs :=
  locateHeaders (parseHeaders "date,track,stream,danceability,energy".toList)

/-- The single-track metadata used by the breakout instance. -/
def tmeta : TrackMeta := ⟨"T1", "T1", 0⟩

/-- A one-row dataset whose track universe is just `A`. -/
def c10data : List Row := [⟨0, "A", 1, 0, 0, 0, 0⟩]

/-! ## Helper lemmas -/

theorem concatBlocks_length {α β : Type} (f : α → List β) (m : ℕ)
    (l : List α) (h : ∀ x ∈ l, (f x).length = m) :
    (concatBlocks f l).length = m * l.length := by
  induction l with
  | nil => simp [concatBlocks]
  | cons x xs ih =>
    simp only [concatBlocks, List.length_append, List.length_cons]
    rw [h x (List.mem_cons_self x xs), ih (fun y hy => h y (List.mem_cons_of_mem x hy))]
    ring

theorem featureVector_length (ndata : List NRow) (d : ℕ) (tr : String) :
    (featureVector ndata d tr).length = 5 := by
  unfold featureVector
  cases findNEntry ndata d tr <;> simp

theorem createSample_eq (ndata : List NRow) (selected : List String)
    (wd : List ℕ) :
    createSample ndata selected wd
      = some (wd.map (fun date => concatBlocks (featureVector ndata date) selected)) := by
  simp [createSample]

theorem trackTargetBlock_length {data : List Row} {sd : List ℕ} {cur : ℕ}
    {tr : String} {b : List ℚ} (h : trackTargetBlock data sd cur tr = some b) :
    b.length = 3 := by
  unfold trackTargetBlock at h
  split at h
  · exact absurd h (by simp)
  · split at h
    · simp only [Option.some.injEq] at h
      rw [← h]
      rfl
    · exact absurd h (by simp)

theorem createTargetGo_length {data : List Row} {sd : List ℕ} {cur : ℕ} :
    ∀ {tracks : List String} {t : List ℚ},
      createTargetGo data sd cur tracks = some t → t.length = tracks.length * 3
  | [], t, h => by
    simp only [createTargetGo, Option.some.injEq] at h
    simp [← h]
  | tr :: rest, t, h => by
    unfold createTargetGo at h
    split at h
    · exact absurd h (by simp)
    · rename_i b hb
      split at h
      · exact absurd h (by simp)
      · rename_i tail ht
        simp only [Option.some.injEq] at h
        rw [← h, List.length_append, trackTargetBlock_length hb,
          createTargetGo_length ht, List.length_cons]
        ring

theorem createTargetGo_isSome_iff {data : List Row} {sd : List ℕ} {cur : ℕ} :
    ∀ {tracks : List String},
      (createTargetGo data sd cur tracks).isSome
        ↔ ∀ tr ∈ tracks, (trackTargetBlock data sd cur tr).isSome
  | [] => by simp [createTargetGo]
  | tr :: rest => by
    have ih := @createTargetGo_isSome_iff data sd cur rest
    unfold createTargetGo
    rcases hb : trackTargetBlock data sd cur tr with _ | b
    · simp only [hb]
      exact iff_of_false (by simp)
        (fun hall => by simpa [hb] using hall tr (List.mem_cons_self tr rest))
    · rcases ht : createTargetGo data sd cur rest with _ | tail
      · rw [ht] at ih
        have hrest : ¬ ∀ tr' ∈ rest, (trackTargetBlock data sd cur tr').isSome := by
          intro hr
          simpa using ih.mpr hr
        simp only [hb, ht]
        exact iff_of_false (by simp)
          (fun hall => hrest (fun tr' h' => hall tr' (List.mem_cons_of_mem _ h')))
      · rw [ht] at ih
        simp only [hb, ht]
        refine iff_of_true (by simp) ?_
        intro tr' htr'
        rcases List.mem_cons.mp htr' with rfl | hmem
        · simp [hb]
        · exact ih.mp (by simp) tr' hmem

theorem forall_lt_three {P : ℕ → Prop} : (∀ o < 3, P o) ↔ P 0 ∧ P 1 ∧ P 2 := by
  constructor
  · intro h
    exact ⟨h 0 (by omega), h 1 (by omega), h 2 (by omega)⟩
  · rintro ⟨p0, p1, p2⟩ o ho
    interval_cases o <;> assumption

theorem forall_lt_four {P : ℕ → Prop} : (∀ o < 4, P o) ↔ P 0 ∧ P 1 ∧ P 2 ∧ P 3 := by
  constructor
  · intro h
    exact ⟨h 0 (by omega), h 1 (by omega), h 2 (by omega), h 3 (by omega)⟩
  · rintro ⟨p0, p1, p2, p3⟩ o ho
    interval_cases o <;> assumption

theorem futureLabel_isSome_iff (data : List Row) (sd : List ℕ) (idx : ℕ)
    (tr : String) (s : ℚ) (o : ℕ) :
    (futureLabel data sd idx tr s o).isSome
      = ((sd[idx + o]?).bind (fun fd => findEntry data fd tr)).isSome := by
  unfold futureLabel
  rcases sd[idx + o]? with _ | fd
  · rfl
  · simp only [Option.some_bind]
    rcases findEntry data fd tr with _ | fe <;> rfl

theorem trackTargetBlock_isSome_iff (data : List Row) (sd : List ℕ)
    (cur : ℕ) (tr : String) :
    (trackTargetBlock data sd cur tr).isSome
      ↔ (findEntry data cur tr).isSome
        ∧ ∀ o < 3, ((sd[sd.indexOf cur + (o + 1)]?).bind
            (fun fd => findEntry data fd tr)).isSome := by
  rw [forall_lt_three]
  unfold trackTargetBlock
  rcases hce : findEntry data cur tr with _ | ce
  · simp
  · simp only [Option.isSome_some, true_and]
    have e1 := futureLabel_isSome_iff data sd (sd.indexOf cur) tr ce.streams 1
    have e2 := futureLabel_isSome_iff data sd (sd.indexOf cur) tr ce.streams 2
    have e3 := futureLabel_isSome_iff data sd (sd.indexOf cur) tr ce.streams 3
    simp only [show (0 : ℕ) + 1 = 1 from rfl, show (1 : ℕ) + 1 = 2 from rfl,
      show (2 : ℕ) + 1 = 3 from rfl]
    rw [← e1, ← e2, ← e3]
    rcases futureLabel data sd (sd.indexOf cur) tr ce.streams 1 with _ | l1 <;>
      rcases futureLabel data sd (sd.indexOf cur) tr ce.streams 2 with _ | l2 <;>
      rcases futureLabel data sd (sd.indexOf cur) tr ce.streams 3 with _ | l3 <;>
      simp

theorem createTargetGo_getElem {data : List Row} {sd : List ℕ} {cur : ℕ} :
    ∀ {tracks : List String} {t : List ℚ},
      createTargetGo data sd cur tracks = some t →
      ∀ k o, k < tracks.length → o < 3 →
        ∃ ce, findEntry data cur (tracks.getD k "") = some ce ∧
          t[k * 3 + o]?
            = futureLabel data sd (sd.indexOf cur) (tracks.getD k "") ce.streams (o + 1)
  | [], t, h, k, o, hk, ho => absurd hk (by simp)
  | tr :: rest, t, h, k, o, hk, ho => by
    unfold createTargetGo at h
    split at h
    · exact absurd h (by simp)
    · rename_i b hb
      split at h
      · exact absurd h (by simp)
      · rename_i tail ht
        simp only [Option.some.injEq] at h
        subst h
        cases k with
        | zero =>
          unfold trackTargetBlock at hb
          split at hb
          · exact absurd hb (by simp)
          · rename_i ce hce
            split at hb
            · rename_i l1 l2 l3 h1 h2 h3
              simp only [Option.some.injEq] at hb
              subst hb
              refine ⟨ce, by simpa using hce, ?_⟩
              interval_cases o <;>
                simp [List.getElem?_append, h1, h2, h3]
            · exact absurd hb (by simp)
        | succ k' =>
          have hk' : k' < rest.length := by simpa using hk
          obtain ⟨ce, hce, hidx⟩ := createTargetGo_getElem ht k' o hk' ho
          refine ⟨ce, by simpa using hce, ?_⟩
          have hb3 : b.length = 3 := trackTargetBlock_length hb
          have harith : k'.succ * 3 + o = b.length + (k' * 3 + o) := by
            rw [hb3]; omega
          rw [harith, List.getElem?_append_right (by omega), Nat.add_sub_cancel_left]
          simpa using hidx

theorem sortedDatesOf_sorted (data : List Row) :
    List.Sorted (· ≤ ·) (sortedDatesOf data) :=
  List.sorted_insertionSort _ _

theorem sortedDatesOf_perm (data : List Row) :
    List.Perm (sortedDatesOf data) ((data.map Row.date).dedup) :=
  List.perm_insertionSort _ _

theorem sortedDatesOf_nodup (data : List Row) : (sortedDatesOf data).Nodup :=
  ((sortedDatesOf_perm data).symm).nodup (List.nodup_dedup _)

theorem mem_sortedDatesOf {data : List Row} {x : ℕ} :
    x ∈ sortedDatesOf data ↔ ∃ e ∈ data, e.date = x := by
  rw [(sortedDatesOf_perm data).mem_iff, List.mem_dedup, List.mem_map]

theorem length_filterMap_eq {α β : Type} (f : α → Option β) :
    ∀ l : List α, (l.filterMap f).length = (l.filter (fun a => (f a).isSome)).length
  | [] => rfl
  | x :: xs => by
    rcases hf : f x with _ | y <;>
      simp [List.filterMap_cons, List.filter_cons, hf, length_filterMap_eq f xs]

theorem createTarget_length {data : List Row} {selected : List String}
    {cur : ℕ} {t : List ℚ} (h : createTarget data selected cur = some t) :
    t.length = selected.length * 3 :=
  createTargetGo_length h

theorem windowAt_isSome_eq (data : List Row) (ndata : List NRow)
    (selected : List String) {i : ℕ} (hge : windowSize ≤ i)
    (hlt : i + 3 < (sortedDatesOf data).length) :
    (windowAt data ndata selected (sortedDatesOf data) i).isSome
      = requiredObsPresent data selected i := by
  set sd := sortedDatesOf data with hsd
  have hiff : (windowAt data ndata selected sd i).isSome
      = (createTarget data selected (sd.getD i 0)).isSome := by
    unfold windowAt
    simp only [createSample_eq]
    rcases htarget : createTarget data selected (sd.getD i 0) with _ | t <;>
      simp only [htarget]
    · rfl
    · simp [createTarget_length htarget]
  rw [hiff, Bool.eq_iff_iff]
  have hibnd : i < sd.length := by omega
  have hgetD : sd.getD i 0 = sd[i] := List.getD_eq_getElem sd 0 hibnd
  have hidxOf : sd.indexOf (sd.getD i 0) = i := by
    rw [hgetD]
    exact List.indexOf_getElem (sortedDatesOf_nodup data) i hibnd
  unfold createTarget
  rw [← hsd, createTargetGo_isSome_iff]
  unfold requiredObsPresent
  rw [← hsd, List.all_eq_true]
  apply forall_congr'
  intro tr
  apply imp_congr_right
  intro _
  rw [trackTargetBlock_isSome_iff, hidxOf, List.all_eq_true, show
    ((∀ o ∈ List.range 4,
        ((findEntry data (sd.getD (i + o) 0) tr).isSome = true))
      ↔ ∀ o < 4, (findEntry data (sd.getD (i + o) 0) tr).isSome) from by
    simp [List.mem_range]]
  rw [forall_lt_three, forall_lt_four]
  have hfut : ∀ o : ℕ, o < 3 →
      ((sd[i + (o + 1)]?).bind (fun fd => findEntry data fd tr)).isSome
        = (findEntry data (sd.getD (i + (o + 1)) 0) tr).isSome := by
    intro o ho
    have hb : i + (o + 1) < sd.length := by omega
    rw [List.getElem?_eq_getElem hb, List.getD_eq_getElem sd 0 hb]
    rfl
  constructor
  · rintro ⟨h0, h1, h2, h3⟩
    exact ⟨h0, (hfut 0 (by omega)) ▸ h1, (hfut 1 (by omega)) ▸ h2,
      (hfut 2 (by omega)) ▸ h3⟩
  · rintro ⟨h0, h1, h2, h3⟩
    exact ⟨h0, (hfut 0 (by omega)).symm ▸ h1, (hfut 1 (by omega)).symm ▸ h2,
      (hfut 2 (by omega)).symm ▸ h3⟩

theorem createSlidingWindows_count (data : List Row) (selected : List String) :
    ((createSlidingWindows data selected).1).length
      = ((List.range' windowSize ((sortedDatesOf data).length - 3 - windowSize)).filter
          (requiredObsPresent data selected)).length := by
  unfold createSlidingWindows
  simp only [List.length_map]
  rw [length_filterMap_eq]
  congr 1
  apply List.filter_congr
  intro i hi
  obtain ⟨j, hj, rfl⟩ := List.mem_range'.mp hi
  apply windowAt_isSome_eq
  · exact Nat.le_add_right _ _
  · simp only [windowSize] at hj ⊢
    omega

theorem dedup_append_singleton {α : Type} [DecidableEq α] {a : α} :
    ∀ {l : List α}, a ∉ l → (l ++ [a]).dedup = l.dedup ++ [a]
  | [], _ => rfl
  | x :: xs, h => by
    have hax : ¬ (a = x) := fun heq => h (heq ▸ List.mem_cons_self x xs)
    have haxs : a ∉ xs := fun hmem => h (List.mem_cons_of_mem x hmem)
    rcases Classical.em (x ∈ xs) with hx | hx
    · rw [List.cons_append, List.dedup_cons_of_mem (by simp [hx]),
        List.dedup_cons_of_mem hx, dedup_append_singleton haxs]
    · have hx' : x ∉ xs ++ [a] := by
        simp only [List.mem_append, List.mem_singleton]
        rintro (hmem | rfl)
        · exact hx hmem
        · exact hax rfl
      rw [List.cons_append, List.dedup_cons_of_not_mem hx',
        List.dedup_cons_of_not_mem hx, dedup_append_singleton haxs,
        List.cons_append]

theorem insertionSort_append_max {a : ℕ} {l : List ℕ}
    (h : ∀ x ∈ l, x ≤ a) :
    (l ++ [a]).insertionSort (· ≤ ·) = l.insertionSort (· ≤ ·) ++ [a] := by
  apply List.eq_of_perm_of_sorted (r := (· ≤ · : ℕ → ℕ → Prop))
  · exact (List.perm_insertionSort _ _).trans
      ((List.perm_append_comm.trans
        ((List.perm_insertionSort _ l).symm.append_left [a])).trans
        List.perm_append_comm)
  · exact List.sorted_insertionSort _ _
  · rw [List.Sorted, List.pairwise_append]
    refine ⟨List.sorted_insertionSort _ _, List.pairwise_singleton _ _, ?_⟩
    intro x hx b hb
    rw [List.mem_singleton] at hb
    subst hb
    exact h x ((List.perm_insertionSort _ l).mem_iff.mp hx)

theorem sortedDatesOf_append_later {data : List Row} {r : Row}
    (h : ∀ e ∈ data, e.date < r.date) :
    sortedDatesOf (data ++ [r]) = sortedDatesOf data ++ [r.date] := by
  unfold sortedDatesOf
  rw [List.map_append]
  have hnot : r.date ∉ data.map Row.date := by
    rw [List.mem_map]
    rintro ⟨e, he, hdate⟩
    exact absurd hdate (Nat.ne_of_lt (h e he))
  rw [show (List.map Row.date [r]) = [r.date] from rfl,
    dedup_append_singleton hnot]
  apply insertionSort_append_max
  intro x hx
  rw [List.mem_dedup, List.mem_map] at hx
  obtain ⟨e, he, rfl⟩ := hx
  exact Nat.le_of_lt (h e he)

theorem trainingDatesOf_append_later {data : List Row} {r : Row}
    (h : ∀ e ∈ data, e.date < r.date)
    (hb : ((sortedDatesOf data).length + 1) * 4 / 5
      = (sortedDatesOf data).length * 4 / 5) :
    trainingDatesOf (data ++ [r]) = trainingDatesOf data := by
  unfold trainingDatesOf
  rw [sortedDatesOf_append_later h, List.length_append, List.length_singleton, hb]
  apply List.take_append_of_le_length
  calc (sortedDatesOf data).length * 4 / 5
      ≤ (sortedDatesOf data).length * 5 / 5 :=
        Nat.div_le_div_right (by omega)
    _ = (sortedDatesOf data).length := Nat.mul_div_cancel _ (by omega)

theorem notMem_trainingDatesOf_of_later {data : List Row} {r : Row}
    (h : ∀ e ∈ data, e.date < r.date) : r.date ∉ trainingDatesOf data := by
  intro hmem
  have hsd : r.date ∈ sortedDatesOf data :=
    List.take_subset _ _ hmem
  rw [mem_sortedDatesOf] at hsd
  obtain ⟨e, he, hdate⟩ := hsd
  exact absurd hdate (Nat.ne_of_lt (h e he))

theorem fitNormalizationParams_append_later {data : List Row} {r : Row}
    (selected : List String) (h : ∀ e ∈ data, e.date < r.date)
    (hb : ((sortedDatesOf data).length + 1) * 4 / 5
      = (sortedDatesOf data).length * 4 / 5) :
    fitNormalizationParams (data ++ [r]) selected
      = fitNormalizationParams data selected := by
  unfold fitNormalizationParams
  apply List.map_congr_left
  intro tr _
  rw [trainingDatesOf_append_later h hb, List.filter_append]
  have hcontains : ((trainingDatesOf data).contains r.date) = false := by
    cases hcb : (trainingDatesOf data).contains r.date
    · rfl
    · exact absurd (by simpa using hcb) (notMem_trainingDatesOf_of_later h)
  have hr : (r.track_id == tr && (trainingDatesOf data).contains r.date) = false := by
    rw [hcontains, Bool.and_false]
  rw [show ([r].filter (fun d =>
      d.track_id == tr && (trainingDatesOf data).contains d.date)) = [] from by
    simp only [List.filter_cons]
    rw [hr]
    simp]
  rw [List.append_nil]

theorem lookupParams_fit {data : List Row} {tr : String} :
    ∀ {selected : List String}, tr ∈ selected →
      lookupParams (fitNormalizationParams data selected) tr
        = some (fitTrackParams (data.filter (fun d =>
            d.track_id == tr && (trainingDatesOf data).contains d.date)))
  | [], htr => absurd htr (by simp)
  | tr' :: rest, htr => by
    unfold fitNormalizationParams lookupParams
    simp only [List.map_cons, List.find?_cons]
    cases hbeq : (tr' == tr)
    · have htr' : tr ∈ rest := by
        rcases List.mem_cons.mp htr with rfl | hm
        · simp at hbeq
        · exact hm
      have ih := @lookupParams_fit data tr rest htr'
      unfold fitNormalizationParams lookupParams at ih
      simpa using ih
    · have : tr' = tr := by simpa using hbeq
      subst this
      simp

theorem foldl_agg_keys (data : List Row) :
    ∀ (acc : List (String × ℚ)) (p : String × ℚ),
      p ∈ data.foldl (fun acc e =>
        if acc.any (fun q => q.1 == e.track_id) then
          acc.map (fun q => if q.1 == e.track_id then (q.1, q.2 + e.streams) else q)
        else acc ++ [(e.track_id, e.streams)]) acc →
      p.1 ∈ acc.map Prod.fst ∨ ∃ e ∈ data, e.track_id = p.1 := by
  induction data with
  | nil =>
    intro acc p hp
    exact Or.inl (List.mem_map_of_mem _ hp)
  | cons e rest ih =>
    intro acc p hp
    simp only [List.foldl_cons] at hp
    rcases ih _ p hp with hkey | ⟨e', he', heq⟩
    · by_cases hany : (acc.any (fun q => q.1 == e.track_id)) = true
      · rw [if_pos hany, List.map_map] at hkey
        left
        have hfst : (Prod.fst ∘ fun q : String × ℚ =>
            if q.1 == e.track_id then (q.1, q.2 + e.streams) else q) = Prod.fst := by
          funext q
          show (if q.1 == e.track_id then (q.1, q.2 + e.streams) else q).1 = q.1
          split <;> rfl
        rwa [hfst] at hkey
      · rw [if_neg hany, List.map_append] at hkey
        rcases List.mem_append.mp hkey with h1 | h2
        · exact Or.inl h1
        · refine Or.inr ⟨e, List.mem_cons_self _ _, ?_⟩
          have : p.1 = e.track_id := by simpa using h2
          exact this.symm
    · exact Or.inr ⟨e', List.mem_cons_of_mem _ he', heq⟩

theorem aggregateStreams_keys {data : List Row} {p : String × ℚ}
    (hp : p ∈ aggregateStreams data) : ∃ e ∈ data, e.track_id = p.1 := by
  rcases foldl_agg_keys data [] p hp with h | h
  · simp at h
  · exact h

theorem selectTop_mem_data {data : List Row} {n : ℕ} {tr : String}
    (htr : tr ∈ selectTopTracksList data n) : ∃ e ∈ data, e.track_id = tr := by
  unfold selectTopTracksList at htr
  rw [List.mem_map] at htr
  obtain ⟨p, hp, rfl⟩ := htr
  have hp' : p ∈ sortTracksDesc (aggregateStreams data) :=
    List.mem_of_mem_take hp
  have hp'' : p ∈ aggregateStreams data :=
    (List.mergeSort_perm _ _).mem_iff.mp hp'
  exact aggregateStreams_keys hp''

theorem filterMap_if_keys {β : Type} :
    ∀ (l : List String) (g : String → Option (String × β)),
      (∀ tr ∈ l, ∃ m, g tr = some (tr, m)) →
      (l.filterMap g).map Prod.fst = l
  | [], _, _ => rfl
  | tr :: rest, g, h => by
    obtain ⟨m, hm⟩ := h tr (List.mem_cons_self _ _)
    simp only [List.filterMap_cons, hm, List.map_cons]
    rw [filterMap_if_keys rest g (fun x hx => h x (List.mem_cons_of_mem _ hx))]

theorem trackMetadataList_keys (data : List Row) (n : ℕ) :
    (trackMetadataList data n).map Prod.fst = selectTopTracksList data n := by
  unfold trackMetadataList
  apply filterMap_if_keys
  intro tr htr
  obtain ⟨e, he, heq⟩ := selectTop_mem_data htr
  have hmem : e ∈ filterToSelected data (selectTopTracksList data n) := by
    rw [filterToSelected, List.mem_filter]
    refine ⟨he, ?_⟩
    rw [heq]
    exact List.elem_iff.mpr htr
  have hfind : ((filterToSelected data (selectTopTracksList data n)).find?
      (fun d => d.track_id == tr)).isSome := by
    rw [List.find?_isSome]
    exact ⟨e, hmem, by simp [heq]⟩
  rw [if_pos hfind]
  exact ⟨_, rfl⟩

theorem createTarget_getElem_spec {data : List Row} {selected : List String}
    {cur : ℕ} {t : List ℚ} (h : createTarget data selected cur = some t)
    {k o : ℕ} (hk : k < selected.length) (ho : o < 3) :
    ∃ ce fd fe,
      findEntry data cur (selected.getD k "") = some ce
      ∧ (sortedDatesOf data)[(sortedDatesOf data).indexOf cur + (o + 1)]? = some fd
      ∧ findEntry data fd (selected.getD k "") = some fe
      ∧ t[k * 3 + o]? = some (if ce.streams < fe.streams then 1 else 0) := by
  obtain ⟨ce, hce, hidx⟩ := createTargetGo_getElem h k o hk ho
  have hlen : t.length = selected.length * 3 := createTargetGo_length h
  have hbnd : k * 3 + o < t.length := by
    rw [hlen]
    have : k + 1 ≤ selected.length := hk
    calc k * 3 + o < k * 3 + 3 := by omega
      _ = (k + 1) * 3 := by ring
      _ ≤ selected.length * 3 := Nat.mul_le_mul_right 3 this
  have hsome : (t[k * 3 + o]?).isSome := by
    rw [List.getElem?_eq_getElem hbnd]
    rfl
  rw [hidx] at hsome ⊢
  unfold futureLabel at hsome ⊢
  split at hsome
  · exact absurd hsome (by simp)
  · rename_i fd hfd
    split at hsome
    · rename_i fe hfe
      exact ⟨ce, fd, fe, hce, hfd, hfe, rfl⟩
    · exact absurd hsome (by simp)

theorem createSlidingWindows_fst (data : List Row) (selected : List String) :
    (createSlidingWindows data selected).1
      = ((List.range' windowSize ((sortedDatesOf data).length - 3 - windowSize)).filterMap
          (windowAt data (normalizeFeatures data selected) selected
            (sortedDatesOf data))).map Prod.fst := rfl

theorem createSlidingWindows_snd (data : List Row) (selected : List String) :
    (createSlidingWindows data selected).2
      = ((List.range' windowSize ((sortedDatesOf data).length - 3 - windowSize)).filterMap
          (windowAt data (normalizeFeatures data selected) selected
            (sortedDatesOf data))).map Prod.snd := rfl

/-! ## Claim theorems -/

/-- C1: for every loaded dataset, every sample produced by the window
builder is a `windowSize (= 7)` by `featuresPerTrack (= 5) · |selectedTracks|`
matrix; a missing (date, track) observation is zero-filled at the
feature-vector level and never dropped (`createSample` always succeeds,
one row per window date); and every target paired with a sample has
length `3 · |selectedTracks|`. -/
theorem C1_sample_target_shapes (data : List Row) (selected : List String) :
    (∀ s ∈ (createSlidingWindows data selected).1,
        s.length = windowSize ∧ ∀ day ∈ s, day.length = 5 * selected.length)
    ∧ (∀ t ∈ (createSlidingWindows data selected).2,
        t.length = 3 * selected.length)
    ∧ (∀ (ndata : List NRow) (wd : List ℕ), ∃ s,
        createSample ndata selected wd = some s ∧ s.length = wd.length)
    ∧ (∀ (ndata : List NRow) (d : ℕ) (tr : String),
        findNEntry ndata d tr = none →
        featureVector ndata d tr = [0, 0, 0, 0, 0]) := by
  refine ⟨?_, ?_, ?_, ?_⟩
  · intro s hs
    rw [createSlidingWindows_fst, List.mem_map] at hs
    obtain ⟨pair, hpair, rfl⟩ := hs
    rw [List.mem_filterMap] at hpair
    obtain ⟨i, hi, hwin⟩ := hpair
    obtain ⟨j, hj, rfl⟩ := List.mem_range'.mp hi
    unfold windowAt at hwin
    simp only [createSample_eq] at hwin
    split at hwin
    · exact absurd hwin (by simp)
    · rename_i target htarget
      split at hwin
      · rename_i hlen
        simp only [Option.some.injEq] at hwin
        rw [← hwin]
        constructor
        · simp only [List.length_map, List.length_take, List.length_drop]
          simp only [windowSize] at hj ⊢
          omega
        · intro day hday
          simp only [List.mem_map] at hday
          obtain ⟨d, _, rfl⟩ := hday
          exact concatBlocks_length _ 5 selected
            (fun tr _ => featureVector_length _ _ _)
      · exact absurd hwin (by simp)
  · intro t ht
    rw [createSlidingWindows_snd, List.mem_map] at ht
    obtain ⟨pair, hpair, rfl⟩ := ht
    rw [List.mem_filterMap] at hpair
    obtain ⟨i, hi, hwin⟩ := hpair
    unfold windowAt at hwin
    simp only [createSample_eq] at hwin
    split at hwin
    · exact absurd hwin (by simp)
    · rename_i target htarget
      split at hwin
      · rename_i hlen
        simp only [Option.some.injEq] at hwin
        have hsnd : pair.2 = target := by rw [← hwin]
        rw [hsnd, hlen]
        omega
      · exact absurd hwin (by simp)
  · intro ndata wd
    exact ⟨_, createSample_eq ndata selected wd, by simp⟩
  · intro ndata d tr h
    unfold featureVector
    rw [h]

/-- Witness for C1: the shape facts instantiated on the two-track full
grid (whose window builder emits exactly one (sample, target) pair) and
on concrete empty-lookup inputs. -/
theorem C1_witness :
    ((createSlidingWindows fullGrid selAB).1.headD []).length = windowSize
    ∧ ((createSlidingWindows fullGrid selAB).2.headD []).length = 3 * selAB.length
    ∧ (∃ s, createSample ([] : List NRow) selAB [0] = some s ∧ s.length = 1)
    ∧ featureVector ([] : List NRow) 0 "A" = [0, 0, 0, 0, 0] := by
  have c1 := C1_sample_target_shapes fullGrid selAB
  have hlen1 : (createSlidingWindows fullGrid selAB).1.length = 1 := by decide
  have hlen2 : (createSlidingWindows fullGrid selAB).2.length = 1 := by decide
  have hmem1 : (createSlidingWindows fullGrid selAB).1.headD []
      ∈ (createSlidingWindows fullGrid selAB).1 := by
    rcases hl : (createSlidingWindows fullGrid selAB).1 with _ | ⟨x, xs⟩
    · rw [hl] at hlen1; simp at hlen1
    · simp
  have hmem2 : (createSlidingWindows fullGrid selAB).2.headD []
      ∈ (createSlidingWindows fullGrid selAB).2 := by
    rcases hl : (createSlidingWindows fullGrid selAB).2 with _ | ⟨x, xs⟩
    · rw [hl] at hlen2; simp at hlen2
    · simp
  refine ⟨(c1.1 _ hmem1).1, c1.2.1 _ hmem2, ?_, c1.2.2.2 [] 0 "A" rfl⟩
  obtain ⟨s, hs, hl⟩ := c1.2.2.1 [] [0]
  exact ⟨s, hs, by simpa using hl⟩

/-- C2: the window builder iterates candidate end-date indices
`windowSize .. len(dates) - horizon - 1` (the list
`List.range' windowSize (len - 3 - windowSize)`) over the sorted
distinct date list and accepts exactly the candidates for which every
track has an observation at the candidate date and at the three future
dates; on the 11-date two-track full grid the only candidate index is
7 and exactly 1 sample is produced, and removing the one observation
(track B, date D9) — a required future observation — yields 0 samples
while the date list still has 11 dates. -/
theorem C2_candidate_iteration :
    (∀ (data : List Row) (selected : List String),
        ((createSlidingWindows data selected).1).length
          = ((List.range' windowSize ((sortedDatesOf data).length - 3 - windowSize)).filter
              (requiredObsPresent data selected)).length)
    ∧ (sortedDatesOf fullGrid).length = 11
    ∧ List.range' windowSize ((sortedDatesOf fullGrid).length - 3 - windowSize) = [7]
    ∧ (createSlidingWindows fullGrid selAB).1.length = 1
    ∧ (sortedDatesOf puncturedGrid).length = 11
    ∧ (createSlidingWindows puncturedGrid selAB).1.length = 0 :=
  ⟨createSlidingWindows_count, by decide, by decide, by decide, by decide, by decide⟩

/-- Counterexample for C3 as stated: on a dataset with four distinct
dates (fit set = the earliest 3 dates), appending a row whose date is
later than all existing dates moves the `⌊0.8·n⌋` cutoff from 3 to 4,
pulling the existing fourth date (streams 100) into the fit set and
changing the per-(track, feature) parameters. -/
theorem C3_counterexample :
    fitNormalizationParams (c3data ++ [c3row 4 7]) ["A"]
      ≠ fitNormalizationParams c3data ["A"] := by decide

/-- C3 (amended): normalization parameters are computed only from rows
whose date lies in the earliest-80% prefix of the distinct sorted date
set, and appending a row whose date is later than all existing dates
leaves the previously computed parameters unchanged provided the
number `n` of distinct dates satisfies `⌊0.8(n+1)⌋ = ⌊0.8n⌋` (e.g.
`n ≡ 0 mod 5`); when the floor boundary advances, one more existing
date enters the fit set and the parameters may change. -/
theorem C3_train_only_fit :
    (∀ (data : List Row) (selected : List String),
        fitNormalizationParams data selected
          = selected.map (fun tr => (tr, fitTrackParams
              ((data.filter (fun d => (trainingDatesOf data).contains d.date)).filter
                (fun d => d.track_id == tr)))))
    ∧ (∀ (data : List Row) (r : Row) (selected : List String),
        (∀ e ∈ data, e.date < r.date) →
        ((sortedDatesOf data).length + 1) * 4 / 5
          = (sortedDatesOf data).length * 4 / 5 →
        fitNormalizationParams (data ++ [r]) selected
          = fitNormalizationParams data selected) := by
  constructor
  · intro data selected
    unfold fitNormalizationParams
    apply List.map_congr_left
    intro tr _
    rw [List.filter_filter]
  · intro data r selected h hb
    exact fitNormalizationParams_append_later selected h hb

/-- Witness for C3: on the five-date dataset the boundary condition
`⌊0.8·6⌋ = ⌊0.8·5⌋` holds and appending a later row leaves the fitted
parameters unchanged. -/
theorem C3_witness :
    (∀ e ∈ c3data5, e.date < (c3row 5 7).date)
    ∧ ((sortedDatesOf c3data5).length + 1) * 4 / 5
        = (sortedDatesOf c3data5).length * 4 / 5
    ∧ fitNormalizationParams (c3data5 ++ [c3row 5 7]) ["A"]
        = fitNormalizationParams c3data5 ["A"] :=
  ⟨by decide, by decide,
    C3_train_only_fit.2 c3data5 (c3row 5 7) ["A"] (by decide) (by decide)⟩

/-- C4: for every accepted window's target vector (track-major,
offset-minor over offsets 1..3), the entry at position `k·3 + o` is 1
iff the future date's streams strictly exceed the current day's streams
for track `k` (so equal streams give 0), and a candidate missing a
required current or future observation for any selected track is
discarded entirely (`createTarget` returns `none`). -/
theorem C4_target_semantics :
    (∀ (data : List Row) (selected : List String) (cur : ℕ) (t : List ℚ),
        createTarget data selected cur = some t →
        ∀ k o, k < selected.length → o < 3 →
          ∃ ce fd fe,
            findEntry data cur (selected.getD k "") = some ce
            ∧ (sortedDatesOf data)[(sortedDatesOf data).indexOf cur + (o + 1)]? = some fd
            ∧ findEntry data fd (selected.getD k "") = some fe
            ∧ t[k * 3 + o]? = some (if ce.streams < fe.streams then 1 else 0))
    ∧ (∀ (data : List Row) (selected : List String) (cur : ℕ) (tr : String),
        tr ∈ selected →
        (findEntry data cur tr = none
          ∨ ∃ o, o < 3 ∧ ((sortedDatesOf data)[(sortedDatesOf data).indexOf cur + (o + 1)]?).bind
              (fun fd => findEntry data fd tr) = none) →
        createTarget data selected cur = none) := by
  constructor
  · intro data selected cur t h k o hk ho
    exact createTarget_getElem_spec h hk ho
  · intro data selected cur tr htr hmiss
    rcases hres : createTarget data selected cur with _ | t
    · rfl
    · exfalso
      have hsome : (createTargetGo data (sortedDatesOf data) cur selected).isSome := by
        rw [show createTargetGo data (sortedDatesOf data) cur selected
          = createTarget data selected cur from rfl, hres]
        rfl
      have hblock := createTargetGo_isSome_iff.mp hsome tr htr
      rw [trackTargetBlock_isSome_iff] at hblock
      obtain ⟨hcur, hfut⟩ := hblock
      rcases hmiss with hnone | ⟨o, ho, hnone⟩
      · rw [hnone] at hcur
        simp at hcur
      · have := hfut o ho
        rw [hnone] at this
        simp at this

/-- Witness for C4: on the one-track dataset with streams
5, 3, 3, 8, 2 at dates 0..4, the target for current date 1 is
`[0, 1, 0]` (equal streams → 0, 8 > 3 → 1, 2 < 3 → 0), and the
entry characterization holds at track 0, offset 1. -/
theorem C4_witness :
    createTarget c4data ["A"] 1 = some [0, 1, 0]
    ∧ (∃ ce fd fe,
        findEntry c4data 1 ((["A"] : List String).getD 0 "") = some ce
        ∧ (sortedDatesOf c4data)[(sortedDatesOf c4data).indexOf 1 + (1 + 1)]? = some fd
        ∧ findEntry c4data fd ((["A"] : List String).getD 0 "") = some fe
        ∧ ([0, 1, 0] : List ℚ)[0 * 3 + 1]?
            = some (if ce.streams < fe.streams then 1 else 0)) :=
  ⟨by decide,
    C4_target_semantics.1 c4data ["A"] 1 [0, 1, 0] (by decide) 0 1
      (by decide) (by decide)⟩

/-- C5: `computeConsistentAccuracy` thresholds predictions and targets
at 0.5, counts exact matches over all scalar entries, and divides by
the entry count `rows × columns` taken from the shape; on predictions
`[[0.6, 0.4], [0.3, 0.7]]` and targets `[[1, 0], [0, 1]]` all 4 entries
match, giving 100. -/
theorem C5_consistent_accuracy :
    computeConsistentAccuracy [[6/10, 4/10], [3/10, 7/10]] [[1, 0], [0, 1]] = 100 := by
  norm_num [computeConsistentAccuracy, countMatches, binarize]

/-- Shared evaluation: the breakout record produced for per-sample day
probabilities (0.2, 0.5, 0.8). -/
theorem detectBreakout_ex_eval :
    detectBreakoutTracks [[1/5, 1/2, 4/5]] [tmeta]
      = [⟨"T1", "T1", 150, 50, "rising", "high"⟩] := by
  simp [detectBreakoutTracks, trackBreakout, breakoutSums, calculateRiskLevel,
    List.enum, tmeta]
  norm_num

/-- Counterexample for C6 as stated: for day probabilities
(0.2, 0.5, 0.8) the detector does not assign risk level `low` — the
confidence 0.5 fails both the `> 0.70` and `> 0.60` gates, and the
positive score falls through to `high`. -/
theorem C6_counterexample :
    (detectBreakoutTracks [[1/5, 1/2, 4/5]] [tmeta]).map BreakoutInfo.riskLevel
      ≠ ["low"] := by
  rw [detectBreakout_ex_eval]
  decide

/-- C6 (amended): for per-sample day probabilities (0.2, 0.5, 0.8) the
breakout detector computes trend-strength score
`(0.8 - 0.2)·2 + (0.5 - 0.2) = 1.5` and confidence
`(0.2 + 0.5 + 0.8)/3 = 0.5` (reported ×100 as 150 and 50), and assigns
risk level `high`, not `low`. -/
theorem C6_breakout_scoring :
    detectBreakoutTracks [[1/5, 1/2, 4/5]] [tmeta]
      = [⟨"T1", "T1", (3/2) * 100, (1/2) * 100, "rising", "high"⟩]
    ∧ calculateRiskLevel (3/2) (1/2) = "high" := by
  constructor
  · rw [detectBreakout_ex_eval, show ((3:ℚ)/2) * 100 = 150 from by norm_num,
      show ((1:ℚ)/2) * 100 = 50 from by norm_num]
  · norm_num [calculateRiskLevel]

/-- C7: min-max normalization maps the fitted minimum to 0 and maximum
to 1 when `max > min` and is the constant 0.5 when `max = min`; a
(track, feature) pair with no training-period observations gets the
fallback `{min: 0, max: 1}`; and a row whose track has no parameters at
all gets the constant 0.5 for every normalized feature. -/
theorem C7_normalization_edges :
    (∀ p : NormParams, p.min < p.max →
        minMaxNormalize p.min p = 0 ∧ minMaxNormalize p.max p = 1)
    ∧ (∀ (v : ℚ) (p : NormParams), p.max = p.min → minMaxNormalize v p = 1/2)
    ∧ (∀ (data : List Row) (selected : List String) (tr : String),
        tr ∈ selected →
        data.filter (fun d => d.track_id == tr
          && (trainingDatesOf data).contains d.date) = [] →
        lookupParams (fitNormalizationParams data selected) tr
          = some ⟨⟨0, 1⟩, ⟨0, 1⟩, ⟨0, 1⟩, ⟨0, 1⟩, ⟨0, 1⟩⟩)
    ∧ (∀ (params : List (String × TrackParams)) (e : Row),
        lookupParams params e.track_id = none →
        applyNormalization params e = ⟨e, 1/2, 1/2, 1/2, 1/2, 1/2⟩) := by
  refine ⟨?_, ?_, ?_, ?_⟩
  · intro p h
    unfold minMaxNormalize
    constructor
    · rw [if_pos h, sub_self, zero_div]
    · rw [if_pos h, div_self (ne_of_gt (sub_pos.mpr h))]
  · intro v p h
    unfold minMaxNormalize
    rw [if_neg (by rw [h]; exact lt_irrefl _)]
  · intro data selected tr htr hempty
    rw [lookupParams_fit htr, hempty]
    rfl
  · intro params e h
    unfold applyNormalization
    rw [h]

/-- Witness for C7: the four normalization edge cases instantiated at
concrete parameters. -/
theorem C7_witness :
    minMaxNormalize 1 ⟨1, 3⟩ = 0 ∧ minMaxNormalize 3 ⟨1, 3⟩ = 1
    ∧ minMaxNormalize 7 ⟨2, 2⟩ = 1/2
    ∧ lookupParams (fitNormalizationParams [] ["A"]) "A"
        = some ⟨⟨0, 1⟩, ⟨0, 1⟩, ⟨0, 1⟩, ⟨0, 1⟩, ⟨0, 1⟩⟩
    ∧ applyNormalization [] (gridRow "A" 0)
        = ⟨gridRow "A" 0, 1/2, 1/2, 1/2, 1/2, 1/2⟩ := by
  have c7 := C7_normalization_edges
  have h1 := c7.1 ⟨1, 3⟩ (by norm_num)
  exact ⟨h1.1, h1.2, c7.2.1 7 ⟨2, 2⟩ rfl,
    c7.2.2.1 [] ["A"] "A" (by decide) rfl,
    c7.2.2.2 [] (gridRow "A" 0) rfl⟩

unseal List.mergeSort List.merge in
/-- C8: track selection aggregates totals per track (in
first-encountered order), sorts descending by total with a stable sort
(ties keep first-encountered order), and truncates to `n`; for totals
{A: 100, B: 50, C: 200} and `n = 2` the selected sequence is
`[C, A]`. -/
theorem C8_track_selection :
    selectTopTracksList ex8 2 = ["C", "A"]
    ∧ (∀ data : List Row, List.Pairwise (fun a b : String × ℚ => b.2 ≤ a.2)
        (sortTracksDesc (aggregateStreams data)))
    ∧ (∀ (data : List Row) (a b : String × ℚ), a.2 = b.2 →
        List.Sublist [a, b] (aggregateStreams data) →
        List.Sublist [a, b] (sortTracksDesc (aggregateStreams data)))
    ∧ (∀ (data : List Row) (n : ℕ), (selectTopTracksList data n).length ≤ n) := by
  have htrans : ∀ a b c : String × ℚ,
      trackLE a b = true → trackLE b c = true → trackLE a c = true := by
    intro a b c hab hbc
    simp only [trackLE, decide_eq_true_eq] at *
    exact le_trans hbc hab
  have htotal : ∀ a b : String × ℚ, (trackLE a b || trackLE b a) = true := by
    intro a b
    simp only [trackLE, Bool.or_eq_true, decide_eq_true_eq]
    exact le_total b.2 a.2
  refine ⟨by decide, ?_, ?_, ?_⟩
  · intro data
    have hs := List.sorted_mergeSort htrans htotal (aggregateStreams data)
    exact hs.imp (fun h => by simpa [trackLE] using h)
  · intro data a b heq hsub
    exact List.pair_sublist_mergeSort htrans htotal (by simp [trackLE, heq]) hsub
  · intro data n
    unfold selectTopTracksList
    rw [List.length_map, List.length_take]
    omega

/-- Witness for C8: on tied totals {A: 100, B: 100} the stable sort
keeps the first-encountered order (A before B). -/
theorem C8_witness :
    (("A", (100:ℚ)).2 = ("B", (100:ℚ)).2)
    ∧ List.Sublist [("A", (100:ℚ)), ("B", 100)] (aggregateStreams ex8tie)
    ∧ List.Sublist [("A", (100:ℚ)), ("B", 100)]
        (sortTracksDesc (aggregateStreams ex8tie)) := by
  have heq : (("A", (100:ℚ))).2 = (("B", (100:ℚ))).2 := rfl
  have hsub : List.Sublist [("A", (100:ℚ)), ("B", 100)] (aggregateStreams ex8tie) := by
    rw [show aggregateStreams ex8tie = [("A", (100:ℚ)), ("B", 100)] from by decide]
  exact ⟨heq, hsub, C8_track_selection.2.2.1 ex8tie _ _ heq hsub⟩

/-- C9 (amended): a data row is retained only if it yields a non-empty
track id and date; a row is skipped entirely when its parsed column
count is strictly below `Math.max` of the located date/track/stream/
danceability/energy indices; but a row whose column count equals that
maximum is retained even though it cannot contain the highest located
column (the check is `>=` the max index, off by one from containing it),
with that feature read from `undefined`. -/
theorem C9_row_retention :
    (∀ (pn : Option (List Char) → ℚ) (csv : List Char) (e : CSVEntry),
        e ∈ parseCSV pn csv → e.track_id ≠ [] ∧ e.date ≠ [])
    ∧ (∀ (pn : Option (List Char) → ℚ) (idxs : HeaderIdxs) (line : List Char),
        ((parseCSVLine line).length : Int) < requiredIdxMax idxs →
        rowEntry pn idxs line = none) := by
  constructor
  · intro pn csv e he
    unfold parseCSV at he
    split at he
    · simp at he
    · rw [List.mem_filterMap] at he
      obtain ⟨line, hline, hrow⟩ := he
      simp only [rowEntry] at hrow
      split at hrow
      · split at hrow
        · rename_i hcond
          simp only [Option.some.injEq] at hrow
          rw [← hrow]
          exact hcond
        · exact absurd hrow (by simp)
      · exact absurd hrow (by simp)
  · intro pn idxs line h
    simp only [rowEntry]
    rw [if_neg (not_le.mpr h)]

/-- Counterexample for C9 as stated: in `csv9` the data row
`d1,t1,5,6` parses to 4 columns, which cannot contain the located
`energy` column (index 4), yet the row is retained as an entry (with
`energy` parsed from `undefined`) because the length check is
`values.length >= Math.max(...)` rather than `>`. -/
theorem C9_counterexample :
    parseCSV pn0 csv9 = [⟨"d1".toList, "t1".toList, 0, 0, 0, 0, 0⟩]
    ∧ (parseCSVLine "d1,t1,5,6".toList).length = 4
    ∧ csv9idxs.energyIdx = 4
    ∧ requiredIdxMax csv9idxs = 4
    ∧ parseCSV pn0 csv9 ≠ [] :=
  ⟨by decide, by decide, by decide, by decide, by decide⟩

/-- Witness for C9: the retained `csv9` entry has non-empty track id
and date, and a one-column row is skipped under the located indices. -/
theorem C9_witness :
    (⟨"d1".toList, "t1".toList, 0, 0, 0, 0, 0⟩ : CSVEntry).track_id ≠ []
    ∧ (⟨"d1".toList, "t1".toList, 0, 0, 0, 0, 0⟩ : CSVEntry).date ≠ []
    ∧ rowEntry pn0 csv9idxs "x".toList = none := by
  have c9 := C9_row_retention
  have hmem : (⟨"d1".toList, "t1".toList, 0, 0, 0, 0, 0⟩ : CSVEntry)
      ∈ parseCSV pn0 csv9 := by decide
  obtain ⟨h1, h2⟩ := c9.1 pn0 csv9 _ hmem
  exact ⟨h1, h2, c9.2 pn0 csv9idxs "x".toList (by decide)⟩

/-- C10: after track selection (on a fresh loader state) the iteration
order of the `trackMetadata` map equals the `selectedTracks` order, so
an analyzer that derives a track's index `k` from its position in
`trackMetadata` and reads prediction/target columns `k·3 + o`
addresses exactly that track's block: the entry at `k·3 + o` of every
accepted target is the streams comparison of the track at metadata
position `k`. -/
theorem C10_metadata_order :
    (∀ (data : List Row) (n : ℕ),
        (trackMetadataList data n).map Prod.fst = selectTopTracksList data n)
    ∧ (∀ (data : List Row) (n : ℕ) (data' : List Row) (cur : ℕ) (t : List ℚ),
        createTarget data' (selectTopTracksList data n) cur = some t →
        ∀ k o, k < (trackMetadataList data n).length → o < 3 →
          ∃ ce fd fe,
            findEntry data' cur
              (((trackMetadataList data n).map Prod.fst).getD k "") = some ce
            ∧ (sortedDatesOf data')[(sortedDatesOf data').indexOf cur + (o + 1)]?
                = some fd
            ∧ findEntry data' fd
                (((trackMetadataList data n).map Prod.fst).getD k "") = some fe
            ∧ t[k * 3 + o]? = some (if ce.streams < fe.streams then 1 else 0)) := by
  refine ⟨trackMetadataList_keys, ?_⟩
  intro data n data' cur t h k o hk ho
  have hkeys := trackMetadataList_keys data n
  have hklen : k < (selectTopTracksList data n).length := by
    rw [← hkeys, List.length_map]
    exact hk
  rw [hkeys]
  exact createTarget_getElem_spec h hklen ho

unseal List.mergeSort List.merge in
/-- Witness for C10: with track universe `[A]` selected from `c10data`
and targets built over `c4data`, the metadata-position-0 track `A`
owns target column 0. -/
theorem C10_witness :
    createTarget c4data (selectTopTracksList c10data 1) 1 = some [0, 1, 0]
    ∧ (∃ ce fd fe,
        findEntry c4data 1
          (((trackMetadataList c10data 1).map Prod.fst).getD 0 "") = some ce
        ∧ (sortedDatesOf c4data)[(sortedDatesOf c4data).indexOf 1 + (0 + 1)]?
            = some fd
        ∧ findEntry c4data fd
            (((trackMetadataList c10data 1).map Prod.fst).getD 0 "") = some fe
        ∧ ([0, 1, 0] : List ℚ)[0 * 3 + 0]?
            = some (if ce.streams < fe.streams then 1 else 0)) :=
  ⟨by decide,
    C10_metadata_order.2 c10data 1 c4data 1 [0, 1, 0] (by decide) 0 0
      (by decide) (by decide)⟩

end MusicApp
